import Mathlib

/-!
Verification of the ats-mini client SDK's RPC multiplexing core.

Shallow embedding of the Python SDK (`src/sdk/src/ats_sdk/`):
bytes are modelled as `List Nat` (each element a byte value), time as `ℚ`
(exact stand-in for the float clock), Python dict-shaped message values as
an inductive `PyVal`, and fallible operations as `Except`/`Option` results.
-/

namespace AtsSdk

/-! ## Frame codec (`framing.py`) -/

/-- Big-endian interpretation of a byte list, as in Python's
`int.from_bytes(buf, "big")`. -/
def beVal (bs : List Nat) : Nat :=
  bs.foldl (fun acc b => acc * 256 + b) 0

/-- `length.to_bytes(4, "big")`: the 4-byte big-endian encoding of `n`
(valid for `n < 2^32`). -/
def natToBe4 (n : Nat) : List Nat :=
  [n / 16777216 % 256, n / 65536 % 256, n / 256 % 256, n % 256]

/-- `encode_frame(payload)`: prepend the 4-byte big-endian length. -/
def encode_frame (payload : List Nat) : List Nat :=
  natToBe4 payload.length ++ payload

/-- Errors raised by `decode_frame` (both are `ValueError` in the source,
distinguished here by their message). -/
inductive FrameError where
  | tooShort
  | lengthMismatch
deriving DecidableEq, Repr

/-- `decode_frame(message)`: check the length header against the actual
payload size and return the payload. -/
def decode_frame (message : List Nat) : Except FrameError (List Nat) :=
  if message.length < 4 then
    .error .tooShort
  else
    let length := beVal (message.take 4)
    let payload := message.drop 4
    if length ≠ payload.length then
      .error .lengthMismatch
    else
      .ok payload

theorem beVal_natToBe4 (n : Nat) (h : n < 4294967296) : beVal (natToBe4 n) = n := by
  simp only [beVal, natToBe4, List.foldl]
  omega

/-- C8: for every payload whose length fits the 4-byte length field,
`decode_frame (encode_frame p) = p`. -/
theorem frame_roundtrip (p : List Nat) (h : p.length < 4294967296) :
    decode_frame (encode_frame p) = .ok p := by
  have hlen : (encode_frame p).length = 4 + p.length := by
    simp [encode_frame, natToBe4]
    omega
  have htake : (encode_frame p).take 4 = natToBe4 p.length := by
    simp [encode_frame, natToBe4]
  have hdrop : (encode_frame p).drop 4 = p := by
    simp [encode_frame, natToBe4]
  simp only [decode_frame, hlen, htake, hdrop, beVal_natToBe4 p.length h]
  simp

/-- Witness for C8 at a concrete payload. -/
theorem frame_roundtrip_witness : decode_frame (encode_frame [1, 2, 3]) = .ok [1, 2, 3] :=
  frame_roundtrip [1, 2, 3] (by decide)

/-- C9: `decode_frame` succeeds with `frame.drop 4` exactly when the frame
has at least 4 bytes and the big-endian header equals the payload length;
on any other frame it fails. -/
theorem decode_frame_spec (frame : List Nat) :
    (decode_frame frame = .ok (frame.drop 4) ↔
      4 ≤ frame.length ∧ beVal (frame.take 4) = frame.length - 4) ∧
    (frame.length < 4 ∨ beVal (frame.take 4) ≠ frame.length - 4 →
      (decode_frame frame).isOk = false) := by
  constructor
  · constructor
    · intro h
      simp only [decode_frame] at h
      split at h
      · exact absurd h (by simp)
      · next hge =>
        refine ⟨by omega, ?_⟩
        split at h
        · exact absurd h (by simp)
        · next hne =>
          have : frame.length - 4 = (frame.drop 4).length := by
            simp
          rw [this]
          omega
    · rintro ⟨hge, hhd⟩
      simp only [decode_frame]
      rw [if_neg (by omega)]
      have : beVal (frame.take 4) = (frame.drop 4).length := by
        simp [hhd]
      simp [this]
  · intro h
    simp only [decode_frame]
    rcases h with h | h
    · rw [if_pos h]; rfl
    · split
      · rfl
      · next hge =>
        have : beVal (frame.take 4) ≠ (frame.drop 4).length := by
          simp only [List.length_drop]
          exact h
        rw [if_pos this]
        rfl

/-- Witness for C9: the all-zero 4-byte frame decodes to the empty payload,
and a frame whose header disagrees with its payload length fails. -/
theorem decode_frame_spec_witness :
    decode_frame [0, 0, 0, 0] = .ok [] ∧ (decode_frame [0, 0, 0, 1]).isOk = false := by
  constructor
  · exact (decode_frame_spec [0, 0, 0, 0]).1.mpr (by decide)
  · exact (decode_frame_spec [0, 0, 0, 1]).2 (by decide)

/-! ## Python value model and `Radio._call` (`radio.py`) -/

/-- Dynamic CBOR-decoded Python values as they flow through the SDK:
integers, strings, dicts (association lists), lists and `None`. -/
inductive PyVal where
  | pyInt (n : Int)
  | pyStr (s : String)
  | pyDict (entries : List (String × PyVal))
  | pyList (elems : List PyVal)
  | pyNone

/-- Python's `value is None` test. -/
def PyVal.isNone : PyVal → Bool
  | .pyNone => true
  | _ => false

/-- Dict lookup: `some v` when key `k` is present with value `v`. -/
def dictFind (entries : List (String × PyVal)) (k : String) : Option PyVal :=
  (entries.find? (fun e => e.1 = k)).map (fun e => e.2)

/-- Python's `d.get(k)`: the value, or `None` when the key is absent. -/
def dictGet (entries : List (String × PyVal)) (k : String) : PyVal :=
  (dictFind entries k).getD .pyNone

/-- Python's `d.get(k, default)`. -/
def dictGetD (entries : List (String × PyVal)) (k : String) (default : PyVal) : PyVal :=
  (dictFind entries k).getD default

mutual

/-- A structural stand-in for Python's `str(value)`. -/
def pyToString : PyVal → String
  | .pyInt n => toString n
  | .pyStr s => s
  | .pyNone => "None"
  | .pyDict entries => "\x7b" ++ pyToStringEntries entries ++ "\x7d"
  | .pyList elems => "[" ++ pyToStringElems elems ++ "]"

/-- Rendering of dict entries, comma-separated. -/
def pyToStringEntries : List (String × PyVal) → String
  | [] => ""
  | [(k, v)] => k ++ ": " ++ pyToString v
  | (k, v) :: rest => k ++ ": " ++ pyToString v ++ ", " ++ pyToStringEntries rest

/-- Rendering of list elements, comma-separated. -/
def pyToStringElems : List PyVal → String
  | [] => ""
  | [v] => pyToString v
  | v :: rest => pyToString v ++ ", " ++ pyToStringElems rest

end

/-- The payload of a raised `RpcError(code, message)`. -/
structure RpcError where
  code : PyVal
  message : PyVal

/-- `Radio._call` applied to an already-received reply dict: translate a
non-null `error` field into a raised `RpcError`, else return the `result`
field, defaulting to the empty map. -/
def radioCall (reply : List (String × PyVal)) : Except RpcError PyVal :=
  let err := dictGet reply "error"
  if err.isNone then
    .ok (dictGetD reply "result" (.pyDict []))
  else
    match err with
    | .pyDict d =>
        .error ⟨dictGetD d "code" (.pyInt (-1)), dictGetD d "message" (.pyStr "unknown")⟩
    | e => .error ⟨.pyInt (-1), .pyStr (pyToString e)⟩

/-- C7: a reply whose `error` field is a map containing `code` and `message`
raises `RpcError` with exactly that code and message; an `error` field that
is present but not a map raises `RpcError` with code `-1` and the error's
string form; a null or absent `error` raises no `RpcError`. -/
theorem radioCall_error_translation (reply : List (String × PyVal)) :
    (∀ d, dictGet reply "error" = .pyDict d →
      ∀ c m, dictFind d "code" = some c → dictFind d "message" = some m →
        radioCall reply = .error ⟨c, m⟩) ∧
    (∀ e, dictGet reply "error" = e → e.isNone = false → (∀ d, e ≠ .pyDict d) →
      radioCall reply = .error ⟨.pyInt (-1), .pyStr (pyToString e)⟩) ∧
    (dictGet reply "error" = .pyNone → (radioCall reply).isOk = true) := by
  refine ⟨?_, ?_, ?_⟩
  · intro d hd c m hc hm
    simp only [radioCall, hd]
    simp [PyVal.isNone, dictGetD, hc, hm]
  · intro e he hne hnd
    simp only [radioCall, he, hne]
    cases e with
    | pyDict d => exact absurd rfl (hnd d)
    | pyInt n => rfl
    | pyStr s => rfl
    | pyList xs => rfl
    | pyNone => simp [PyVal.isNone] at hne
  · intro h
    simp only [radioCall, h]
    rfl

/-- Witness for C7 at the spec's end-to-end example: an error map
`{code: 1, message: "out of range"}` surfaces as `RpcError(1, "out of range")`,
and a non-map error degrades to code `-1`. -/
theorem radioCall_error_translation_witness :
    radioCall [("id", .pyInt 7),
               ("error", .pyDict [("code", .pyInt 1), ("message", .pyStr "out of range")])] =
      .error ⟨.pyInt 1, .pyStr "out of range"⟩ ∧
    radioCall [("error", .pyStr "boom")] = .error ⟨.pyInt (-1), .pyStr "boom"⟩ := by
  constructor
  · exact (radioCall_error_translation
      [("id", .pyInt 7),
       ("error", .pyDict [("code", .pyInt 1), ("message", .pyStr "out of range")])]).1
      [("code", .pyInt 1), ("message", .pyStr "out of range")]
      rfl (.pyInt 1) (.pyStr "out of range") rfl rfl
  · exact (radioCall_error_translation [("error", .pyStr "boom")]).2.1
      (.pyStr "boom") rfl rfl (by intro d h; cases h)

/-- C10: a successful reply (no error) with no `result` field yields the
empty map, so facade accessors always see a map-typed result on success. -/
theorem radioCall_missing_result (reply : List (String × PyVal))
    (herr : dictGet reply "error" = .pyNone)
    (hres : dictFind reply "result" = none) :
    radioCall reply = .ok (.pyDict []) := by
  simp only [radioCall, herr]
  simp [PyVal.isNone, dictGetD, hres]

/-- Witness for C10 at a concrete successful reply lacking `result`. -/
theorem radioCall_missing_result_witness :
    radioCall [("id", .pyInt 3)] = .ok (.pyDict []) :=
  radioCall_missing_result [("id", .pyInt 3)] rfl rfl

/-! ## Request/response demultiplexing (`base.py` `AsyncRpcTransport.read_response`,
`legacy.py`/`rpc.py` `SerialRpcClient.read_response`)

Time is modelled by `ℚ`. The transport is a list of pending messages, each
paired with the time `read_message` takes to deliver it; `read_message t`
delivers the head message after its delay when that delay fits in `t`, and
otherwise raises `TimeoutError` after `t`. -/

/-- The decoded-message fields `read_response` inspects: the optional
`type` discriminator and the optional correlation `id`. -/
structure Message where
  mtype : Option String
  mid : Option Int
deriving DecidableEq, Repr

/-- `msg.get("type") == "event"`. -/
def Message.isEvent (m : Message) : Bool := m.mtype = some "event"

/-- Outcome of one `read_response` run: the returned response (`none`
meaning `TimeoutError` was raised), the number of messages consumed, the
`(call time, timeout argument)` of every constituent `read_message` call,
and the messages still undelivered. -/
structure RRRes where
  out : Option Message
  consumed : Nat
  calls : List (ℚ × ℚ)
  rest : List (ℚ × Message)
deriving DecidableEq, Repr

/-- Loop body of `AsyncRpcTransport.read_response` (base.py): while the
fixed deadline has not passed, call `read_message` with the remaining
budget `deadline - now`, skip events, return the response whose id
matches, and drop everything else. -/
def readResponseGo (reqId : Int) (deadline : ℚ) :
    List (ℚ × Message) → ℚ → Nat → List (ℚ × ℚ) → RRRes
  | [], now, consumed, calls =>
      if now < deadline then
        if deadline - now ≤ 0 then ⟨none, consumed, calls, []⟩
        else ⟨none, consumed, calls ++ [(now, deadline - now)], []⟩
      else ⟨none, consumed, calls, []⟩
  | (d, m) :: rest, now, consumed, calls =>
      if now < deadline then
        if deadline - now ≤ 0 then ⟨none, consumed, calls, (d, m) :: rest⟩
        else if d ≤ deadline - now then
          if m.isEvent then
            readResponseGo reqId deadline rest (now + d) (consumed + 1)
              (calls ++ [(now, deadline - now)])
          else if m.mid = some reqId then
            ⟨some m, consumed + 1, calls ++ [(now, deadline - now)], rest⟩
          else
            readResponseGo reqId deadline rest (now + d) (consumed + 1)
              (calls ++ [(now, deadline - now)])
        else ⟨none, consumed, calls ++ [(now, deadline - now)], (d, m) :: rest⟩
      else ⟨none, consumed, calls, (d, m) :: rest⟩

/-- `AsyncRpcTransport.read_response(request_id, timeout)` started at time
`now0` against pending messages `msgs`: the deadline is fixed once as
`now0 + timeout`. -/
def asyncReadResponse (reqId : Int) (timeout now0 : ℚ) (msgs : List (ℚ × Message)) : RRRes :=
  readResponseGo reqId (now0 + timeout) msgs now0 0 []

/-- Loop body of the legacy synchronous `SerialRpcClient.read_response`
(legacy.py / rpc.py): the loop condition checks the fixed deadline, but
every `read_message` call receives the full original `timeout`. -/
def legacyReadResponseGo (reqId : Int) (deadline timeout : ℚ) :
    List (ℚ × Message) → ℚ → Nat → List (ℚ × ℚ) → RRRes
  | [], now, consumed, calls =>
      if now < deadline then ⟨none, consumed, calls ++ [(now, timeout)], []⟩
      else ⟨none, consumed, calls, []⟩
  | (d, m) :: rest, now, consumed, calls =>
      if now < deadline then
        if d ≤ timeout then
          if m.isEvent then
            legacyReadResponseGo reqId deadline timeout rest (now + d) (consumed + 1)
              (calls ++ [(now, timeout)])
          else if m.mid = some reqId then
            ⟨some m, consumed + 1, calls ++ [(now, timeout)], rest⟩
          else
            legacyReadResponseGo reqId deadline timeout rest (now + d) (consumed + 1)
              (calls ++ [(now, timeout)])
        else ⟨none, consumed, calls ++ [(now, timeout)], (d, m) :: rest⟩
      else ⟨none, consumed, calls, (d, m) :: rest⟩

/-- `SerialRpcClient.read_response(request_id, timeout)` (legacy.py/rpc.py)
started at time `now0`. -/
def legacyReadResponse (reqId : Int) (timeout now0 : ℚ) (msgs : List (ℚ × Message)) : RRRes :=
  legacyReadResponseGo reqId (now0 + timeout) timeout msgs now0 0 []

/-- A message `read_response` skips: an event, or a response whose id does
not match the awaited request id. -/
def skippable (reqId : Int) (m : Message) : Prop :=
  m.isEvent = true ∨ m.mid ≠ some reqId

instance (reqId : Int) (m : Message) : Decidable (skippable reqId m) := by
  unfold skippable; infer_instance

lemma readResponseGo_cons_skip (reqId : Int) (deadline d now : ℚ) (m : Message)
    (rest : List (ℚ × Message)) (consumed : Nat) (calls : List (ℚ × ℚ))
    (hnow : now < deadline) (hdle : d ≤ deadline - now) (hm : skippable reqId m) :
    readResponseGo reqId deadline ((d, m) :: rest) now consumed calls
      = readResponseGo reqId deadline rest (now + d) (consumed + 1)
          (calls ++ [(now, deadline - now)]) := by
  have hrem : ¬ (deadline - now ≤ 0) := by linarith
  rcases hm with hev | hnid
  · simp [readResponseGo, hnow, hrem, hdle, hev]
  · cases hev : m.isEvent
    · simp [readResponseGo, hnow, hrem, hdle, hev, hnid]
    · simp [readResponseGo, hnow, hrem, hdle, hev]

lemma readResponseGo_events_then_match (reqId : Int) (deadline : ℚ)
    (dR : ℚ) (resp : Message) (after : List (ℚ × Message))
    (hresp : resp.isEvent = false) (hid : resp.mid = some reqId) (hdR : 0 ≤ dR) :
    ∀ (pre : List (ℚ × Message)) (now : ℚ) (consumed : Nat) (calls : List (ℚ × ℚ)),
      (∀ p ∈ pre, skippable reqId p.2) →
      (∀ p ∈ pre, 0 ≤ p.1) →
      (pre.map Prod.fst).sum + dR < deadline - now →
      (readResponseGo reqId deadline (pre ++ (dR, resp) :: after) now consumed calls).out
          = some resp ∧
      (readResponseGo reqId deadline (pre ++ (dR, resp) :: after) now consumed calls).consumed
          = consumed + pre.length + 1 ∧
      (readResponseGo reqId deadline (pre ++ (dR, resp) :: after) now consumed calls).rest
          = after := by
  intro pre
  induction pre with
  | nil =>
    intro now consumed calls _ _ hsum
    simp only [List.map_nil, List.sum_nil, zero_add] at hsum
    have hnow : now < deadline := by linarith
    have hrem : ¬ (deadline - now ≤ 0) := by linarith
    have hdle : dR ≤ deadline - now := by linarith
    simp [readResponseGo, hnow, hrem, hdle, hresp, hid]
  | cons hd tl ih =>
    intro now consumed calls hskip hnn hsum
    obtain ⟨d0, m0⟩ := hd
    simp only [List.map_cons, List.sum_cons, Prod.fst] at hsum
    have hd0 : 0 ≤ d0 := hnn (d0, m0) (List.mem_cons_self _ _)
    have htlnn : ∀ p ∈ tl, 0 ≤ p.1 := fun p hp => hnn p (List.mem_cons_of_mem _ hp)
    have htlsum : 0 ≤ (tl.map Prod.fst).sum :=
      List.sum_nonneg (by
        intro x hx
        obtain ⟨p, hp, hpx⟩ := List.mem_map.mp hx
        exact hpx ▸ htlnn p hp)
    have hnow : now < deadline := by linarith
    have hdle : d0 ≤ deadline - now := by linarith
    have hskip0 : skippable reqId m0 := hskip (d0, m0) (List.mem_cons_self _ _)
    have hnext : (tl.map Prod.fst).sum + dR < deadline - (now + d0) := by linarith
    have htlskip : ∀ p ∈ tl, skippable reqId p.2 :=
      fun p hp => hskip p (List.mem_cons_of_mem _ hp)
    have step := ih (now + d0) (consumed + 1) (calls ++ [(now, deadline - now)])
      htlskip htlnn hnext
    rw [List.cons_append,
      readResponseGo_cons_skip reqId deadline d0 now m0 (tl ++ (dR, resp) :: after)
        consumed calls hnow hdle hskip0]
    refine ⟨step.1, ?_, step.2.2⟩
    rw [step.2.1]
    simp only [List.length_cons]
    omega

/-- C1: when the pending messages are `N` skippable messages (events, or
responses with a non-matching id) followed by the response for `reqId`,
and everything arrives within the budget, `read_response` returns that
response, consumes exactly `N + 1` messages, and retains none of the
skipped messages — the undelivered tail of the transport is untouched. -/
theorem async_read_response_events_then_match (reqId : Int) (timeout now0 : ℚ)
    (pre : List (ℚ × Message)) (dR : ℚ) (resp : Message) (after : List (ℚ × Message))
    (hskip : ∀ p ∈ pre, skippable reqId p.2)
    (hnn : ∀ p ∈ pre, 0 ≤ p.1) (hdR : 0 ≤ dR)
    (hsum : (pre.map Prod.fst).sum + dR < timeout)
    (hresp : resp.isEvent = false) (hid : resp.mid = some reqId) :
    (asyncReadResponse reqId timeout now0 (pre ++ (dR, resp) :: after)).out = some resp ∧
    (asyncReadResponse reqId timeout now0 (pre ++ (dR, resp) :: after)).consumed
        = pre.length + 1 ∧
    (asyncReadResponse reqId timeout now0 (pre ++ (dR, resp) :: after)).rest = after := by
  have h := readResponseGo_events_then_match reqId (now0 + timeout) dR resp after
    hresp hid hdR pre now0 0 [] hskip hnn (by linarith)
  refine ⟨h.1, ?_, h.2.2⟩
  simp only [asyncReadResponse]
  rw [h.2.1]
  omega

/-- Witness for C1: two events and a foreign response, then the matching
response; all four messages are consumed and the tail is preserved. -/
theorem async_read_response_events_then_match_witness :
    (asyncReadResponse 1 10 0
      [(1, ⟨some "event", none⟩), (2, ⟨none, some 5⟩), (1, ⟨some "event", none⟩),
       (1, ⟨none, some 1⟩), (3, ⟨some "event", none⟩)]).out = some ⟨none, some 1⟩ ∧
    (asyncReadResponse 1 10 0
      [(1, ⟨some "event", none⟩), (2, ⟨none, some 5⟩), (1, ⟨some "event", none⟩),
       (1, ⟨none, some 1⟩), (3, ⟨some "event", none⟩)]).consumed = 4 ∧
    (asyncReadResponse 1 10 0
      [(1, ⟨some "event", none⟩), (2, ⟨none, some 5⟩), (1, ⟨some "event", none⟩),
       (1, ⟨none, some 1⟩), (3, ⟨some "event", none⟩)]).rest = [(3, ⟨some "event", none⟩)] :=
  async_read_response_events_then_match 1 10 0
    [(1, ⟨some "event", none⟩), (2, ⟨none, some 5⟩), (1, ⟨some "event", none⟩)]
    1 ⟨none, some 1⟩ [(3, ⟨some "event", none⟩)]
    (by decide) (by decide) (by decide) (by norm_num) (by decide) (by decide)

lemma readResponseGo_calls_remaining (reqId : Int) (deadline : ℚ) :
    ∀ (msgs : List (ℚ × Message)) (now : ℚ) (consumed : Nat) (calls : List (ℚ × ℚ)),
      (∀ p ∈ calls, p.2 = deadline - p.1) →
      ∀ p ∈ (readResponseGo reqId deadline msgs now consumed calls).calls,
        p.2 = deadline - p.1 := by
  intro msgs
  induction msgs with
  | nil =>
    intro now consumed calls hcalls p hp
    simp only [readResponseGo] at hp
    split at hp
    · split at hp
      · exact hcalls p hp
      · simp only [List.mem_append, List.mem_singleton] at hp
        rcases hp with hp | hp
        · exact hcalls p hp
        · rw [hp]
    · exact hcalls p hp
  | cons hd tl ih =>
    intro now consumed calls hcalls p hp
    obtain ⟨d, m⟩ := hd
    have hext : ∀ q ∈ calls ++ [(now, deadline - now)], q.2 = deadline - q.1 := by
      intro q hq
      simp only [List.mem_append, List.mem_singleton] at hq
      rcases hq with hq | hq
      · exact hcalls q hq
      · rw [hq]
    simp only [readResponseGo] at hp
    split at hp
    · split at hp
      · exact hcalls p hp
      · split at hp
        · split at hp
          · exact ih (now + d) (consumed + 1) (calls ++ [(now, deadline - now)]) hext p hp
          · split at hp
            · exact hext p hp
            · exact ih (now + d) (consumed + 1) (calls ++ [(now, deadline - now)]) hext p hp
        · exact hext p hp
    · exact hcalls p hp

/-- C2 (amended): in `AsyncRpcTransport.read_response` the deadline is
fixed once at entry as `now0 + timeout`, and every constituent
`read_message` call, made at some time `t`, receives exactly the remaining
budget `(now0 + timeout) - t` as its timeout. -/
theorem async_read_response_shrinking_budget (reqId : Int) (timeout now0 : ℚ)
    (msgs : List (ℚ × Message)) :
    ∀ p ∈ (asyncReadResponse reqId timeout now0 msgs).calls,
      p.2 = (now0 + timeout) - p.1 :=
  readResponseGo_calls_remaining reqId (now0 + timeout) msgs now0 0 []
    (by intro p hp; cases hp)

/-- Witness for C2's amended claim: in a concrete run that skips one event
arriving after 1 time unit, the second `read_message` call is made at time
1 with the shrunk budget `4 = (0 + 5) - 1`. -/
theorem async_read_response_shrinking_budget_witness :
    (asyncReadResponse 1 5 0 [(1, ⟨some "event", none⟩), (1, ⟨none, some 1⟩)]).calls
        = [(0, 5), (1, 4)] ∧
    (1, (4 : ℚ)).2 = ((0 : ℚ) + 5) - (1, (4 : ℚ)).1 := by
  have hcalls : (asyncReadResponse 1 5 0
      [(1, ⟨some "event", none⟩), (1, ⟨none, some 1⟩)]).calls = [(0, 5), (1, 4)] := by
    norm_num [asyncReadResponse, readResponseGo, Message.isEvent]
    simp
  refine ⟨hcalls, ?_⟩
  exact async_read_response_shrinking_budget 1 5 0
    [(1, ⟨some "event", none⟩), (1, ⟨none, some 1⟩)] (1, 4) (by rw [hcalls]; simp)

/-- Counterexample to C2 as stated: the legacy synchronous
`SerialRpcClient.read_response` (legacy.py/rpc.py) passes the full
original `timeout` to every `read_message` call. Here the second call is
made at time 3 with timeout 5, not the remaining `(0 + 5) - 3 = 2`. -/
theorem legacy_read_response_full_timeout_counterexample :
    (legacyReadResponse 1 5 0 [(3, ⟨some "event", none⟩), (1, ⟨none, some 1⟩)]).calls
        = [(0, 5), (3, 5)] ∧
    ¬ (∀ p ∈ (legacyReadResponse 1 5 0
          [(3, ⟨some "event", none⟩), (1, ⟨none, some 1⟩)]).calls,
        p.2 = ((0 : ℚ) + 5) - p.1) := by
  have hcalls : (legacyReadResponse 1 5 0
      [(3, ⟨some "event", none⟩), (1, ⟨none, some 1⟩)]).calls = [(0, 5), (3, 5)] := by
    norm_num [legacyReadResponse, legacyReadResponseGo, Message.isEvent]
    simp
  refine ⟨hcalls, ?_⟩
  intro h
  have := h (3, 5) (by rw [hcalls]; simp)
  norm_num at this

/-! ## Serial transport `read_frame` (`transports/serial.py` and the
duplicate in `rpc.py`)

The serial input is modelled as the list of bytes currently deliverable to
`_read_exact`; a `_read_exact` that cannot be satisfied from it raises
`TimeoutError` once the deadline passes. -/

/-- Errors a serial `read_frame` can raise. -/
inductive SerialError where
  | timeout
  | invalidLength
deriving DecidableEq, Repr

/-- Result of one serial `read_frame` call: the frame or the raised error,
the bytes left in the input buffer afterwards, and how many payload bytes
were read after the header. -/
structure SerialReadResult where
  out : Except SerialError (List Nat)
  buffer : List Nat
  payloadBytesRead : Nat
deriving Repr

/-- `_read_exact(size)` against the deliverable bytes: all `size` bytes or
a timeout. -/
def readExact (size : Nat) (buf : List Nat) : Option (List Nat × List Nat) :=
  if size ≤ buf.length then some (buf.take size, buf.drop size) else none

/-- `AsyncSerialRpc.read_frame` of `transports/serial.py`: read the 4-byte
header, validate the declared length (`0 < length ≤ 1_000_000`), on a bad
length flush the whole input buffer (`reset_input_buffer`) and raise
`ValueError` without reading any payload; otherwise read exactly `length`
payload bytes and return header + payload. -/
def serialReadFrame (buf : List Nat) : SerialReadResult :=
  match readExact 4 buf with
  | none => ⟨.error .timeout, buf, 0⟩
  | some (header, rest) =>
    let length := beVal header
    if length > 1000000 ∨ length = 0 then
      ⟨.error .invalidLength, [], 0⟩
    else
      match readExact length rest with
      | none => ⟨.error .timeout, rest, 0⟩
      | some (payload, rest2) => ⟨.ok (header ++ payload), rest2, length⟩

/-- The duplicate `AsyncSerialRpc.read_frame` of `rpc.py`: identical
header/payload reads but with no length validation and no flush. -/
def rpcReadFrame (buf : List Nat) : SerialReadResult :=
  match readExact 4 buf with
  | none => ⟨.error .timeout, buf, 0⟩
  | some (header, rest) =>
    let length := beVal header
    match readExact length rest with
    | none => ⟨.error .timeout, rest, 0⟩
    | some (payload, rest2) => ⟨.ok (header ++ payload), rest2, length⟩

/-- C3 (amended): the exported serial transport's `read_frame`
(`transports/serial.py`), on any input starting with a 4-byte header whose
declared length is `0` or exceeds `1_000_000`, empties the entire input
buffer, fails with the invalid-length error, and reads zero payload bytes
-- with no internal retry, whatever bytes follow the header. -/
theorem serial_read_frame_invalid_length (b0 b1 b2 b3 : Nat) (rest : List Nat)
    (h : beVal [b0, b1, b2, b3] > 1000000 ∨ beVal [b0, b1, b2, b3] = 0) :
    serialReadFrame (b0 :: b1 :: b2 :: b3 :: rest)
      = ⟨.error .invalidLength, [], 0⟩ := by
  have h4 : readExact 4 (b0 :: b1 :: b2 :: b3 :: rest)
      = some ([b0, b1, b2, b3], rest) := by
    simp [readExact]
  simp only [serialReadFrame, h4]
  rw [if_pos h]


/-- Witness for C3's amended claim: a zero header and an oversized header,
each followed by junk, both flush the buffer and fail. -/
theorem serial_read_frame_invalid_length_witness :
    serialReadFrame [0, 0, 0, 0, 42, 43] = ⟨.error .invalidLength, [], 0⟩ ∧
    serialReadFrame [255, 255, 255, 255, 42] = ⟨.error .invalidLength, [], 0⟩ := by
  constructor
  · exact serial_read_frame_invalid_length 0 0 0 0 [42, 43] (by decide)
  · exact serial_read_frame_invalid_length 255 255 255 255 [42] (by decide)

/-- Counterexample to C3 as stated over its cited sources: the duplicate
serial `read_frame` in `rpc.py` performs no length validation -- on a
header declaring length `0` it succeeds, returning a header-only frame and
flushing nothing. -/
theorem rpc_read_frame_no_validation_counterexample :
    rpcReadFrame [0, 0, 0, 0, 42, 43] = ⟨.ok [0, 0, 0, 0], [42, 43], 0⟩ := by
  rfl

/-! ## BLE transport (`ble.py`)

The receive side is modelled by the current `_rx_buffer` contents plus the
list of notification payloads still to arrive; each wait on `_rx_event`
consumes the next notification (`_on_notification` appends its bytes). -/

/-- Errors a BLE call can raise. -/
inductive BleError where
  | timeout
  | connectionError
deriving DecidableEq, Repr

/-- `AsyncBleRpc._on_notification`: append the notification's bytes to the
receive buffer. -/
def onNotification (rxBuffer data : List Nat) : List Nat :=
  rxBuffer ++ data

/-- One `while len(buffer) < target: await event` loop of
`AsyncBleRpc.read_frame`: returns whether the target was reached, the
buffer contents, and the notifications not yet consumed. -/
def bleAwait (target : Nat) : List (List Nat) → List Nat → Bool × List Nat × List (List Nat)
  | arrivals, buf =>
    if target ≤ buf.length then (true, buf, arrivals)
    else
      match arrivals with
      | [] => (false, buf, [])
      | a :: rest => bleAwait target rest (onNotification buf a)

/-- Result of one BLE `read_frame` call: the frame or the raised error, the
receive buffer afterwards, and the notifications not yet consumed. -/
structure BleReadResult where
  out : Except BleError (List Nat)
  rxBuffer : List Nat
  pending : List (List Nat)
deriving Repr

/-- `AsyncBleRpc.read_frame`: wait for 4 buffered bytes, parse the
big-endian length, wait for `4 + length` buffered bytes, slice off exactly
that many and leave the remainder in the buffer. A wait that runs out of
notifications is a `TimeoutError`. -/
def bleReadFrame (buf : List Nat) (arrivals : List (List Nat)) : BleReadResult :=
  match bleAwait 4 arrivals buf with
  | (false, buf1, arr1) => ⟨.error .timeout, buf1, arr1⟩
  | (true, buf1, arr1) =>
    let length := beVal (buf1.take 4)
    let totalSize := 4 + length
    match bleAwait totalSize arr1 buf1 with
    | (false, buf2, arr2) => ⟨.error .timeout, buf2, arr2⟩
    | (true, buf2, arr2) => ⟨.ok (buf2.take totalSize), buf2.drop totalSize, arr2⟩

lemma bleAwait_reaches (target : Nat) :
    ∀ (arrivals : List (List Nat)) (buf : List Nat),
      target ≤ (buf ++ arrivals.flatten).length →
      (bleAwait target arrivals buf).1 = true ∧
      (bleAwait target arrivals buf).2.1 ++ (bleAwait target arrivals buf).2.2.flatten
          = buf ++ arrivals.flatten ∧
      target ≤ (bleAwait target arrivals buf).2.1.length := by
  intro arrivals
  induction arrivals with
  | nil =>
    intro buf h
    simp only [List.flatten_nil, List.append_nil] at h
    simp [bleAwait, h]
  | cons a rest ih =>
    intro buf h
    by_cases hbuf : target ≤ buf.length
    · simp [bleAwait, hbuf]
    · have hlen : target ≤ ((buf ++ a) ++ rest.flatten).length := by
        simp only [List.flatten_cons, List.length_append] at h ⊢
        omega
      have := ih (buf ++ a) hlen
      simp only [bleAwait, if_neg hbuf, onNotification]
      refine ⟨this.1, ?_, this.2.2⟩
      rw [this.2.1]
      simp

/-- C4: for every partition of a well-formed frame followed by later bytes
into notification chunks of arbitrary sizes, `read_frame` on the
accumulated buffer returns exactly the frame (header plus payload, length
taken from the big-endian header) and every remaining byte stays available
for the next frame (still buffered or still pending). -/
theorem ble_read_frame_reassembly (header payload rest : List Nat)
    (chunks : List (List Nat))
    (hh : header.length = 4) (hl : beVal header = payload.length)
    (hjoin : chunks.flatten = header ++ payload ++ rest) :
    (bleReadFrame [] chunks).out = .ok (header ++ payload) ∧
    (bleReadFrame [] chunks).rxBuffer ++ (bleReadFrame [] chunks).pending.flatten
        = rest := by
  have hlen1 : 4 ≤ (([] : List Nat) ++ chunks.flatten).length := by
    simp [hjoin, hh]
  obtain ⟨hok1, hinv1, hge1⟩ := bleAwait_reaches 4 chunks [] hlen1
  rcases hA : bleAwait 4 chunks [] with ⟨b1, buf1, arr1⟩
  rw [hA] at hok1 hinv1 hge1
  simp only [List.nil_append] at hok1 hinv1 hge1
  subst hok1
  rw [hjoin] at hinv1
  have htake4 : buf1.take 4 = header := by
    have h1 : (buf1 ++ arr1.flatten).take 4 = buf1.take 4 :=
      List.take_append_of_le_length hge1
    rw [hinv1, List.append_assoc, ← hh, List.take_left] at h1
    rw [hh] at h1
    exact h1.symm
  have hlen2 : 4 + payload.length ≤ (buf1 ++ arr1.flatten).length := by
    rw [hinv1]
    simp [hh]
  obtain ⟨hok2, hinv2, hge2⟩ := bleAwait_reaches (4 + payload.length) arr1 buf1 hlen2
  rcases hB : bleAwait (4 + payload.length) arr1 buf1 with ⟨b2, buf2, arr2⟩
  rw [hB] at hok2 hinv2 hge2
  simp only at hok2 hinv2 hge2
  subst hok2
  rw [hinv1] at hinv2
  have hhp : (header ++ payload).length = 4 + payload.length := by
    simp [hh]
  have htakeT : buf2.take (4 + payload.length) = header ++ payload := by
    have h1 : (buf2 ++ arr2.flatten).take (4 + payload.length) = buf2.take (4 + payload.length) :=
      List.take_append_of_le_length hge2
    rw [hinv2, ← hhp, List.take_left] at h1
    rw [hhp] at h1
    exact h1.symm
  have hdropT : buf2.drop (4 + payload.length) ++ arr2.flatten = rest := by
    have h1 : (buf2 ++ arr2.flatten).drop (4 + payload.length)
        = buf2.drop (4 + payload.length) ++ arr2.flatten :=
      List.drop_append_of_le_length hge2
    rw [hinv2, ← hhp, List.drop_left] at h1
    rw [hhp] at h1
    exact h1.symm
  simp only [bleReadFrame, hA, htake4, hl, hB]
  exact ⟨congrArg Except.ok htakeT, hdropT⟩

/-- Witness for C4: the frame `00 00 00 02 0A 14` followed by the next
frame's first bytes `00 00`, delivered in four non-aligned notifications,
reassembles exactly, leaving the two extra bytes available. -/
theorem ble_read_frame_reassembly_witness :
    (bleReadFrame [] [[0], [0, 0], [2, 10], [20, 0, 0]]).out
        = .ok [0, 0, 0, 2, 10, 20] ∧
    (bleReadFrame [] [[0], [0, 0], [2, 10], [20, 0, 0]]).rxBuffer
        ++ (bleReadFrame [] [[0], [0, 0], [2, 10], [20, 0, 0]]).pending.flatten
        = [0, 0] :=
  ble_read_frame_reassembly [0, 0, 0, 2] [10, 20] [0, 0]
    [[0], [0, 0], [2, 10], [20, 0, 0]] (by decide) (by decide) (by decide)

/-- One observable I/O action of `AsyncBleRpc.write_frame`: a GATT write of
a chunk, or the inter-chunk pacing `asyncio.sleep(0.005)`. -/
inductive BleOp where
  | write (data : List Nat)
  | sleep
deriving DecidableEq, Repr

/-- The action trace of `AsyncBleRpc.write_frame`: write
`frame[offset:offset+chunk_size]`, advance, and sleep before each further
chunk. Faithful to the source for `chunkSize ≥ 1` (with `chunkSize = 0`
the Python loop never terminates). -/
def writeFrameOps (chunkSize : Nat) (frame : List Nat) : List BleOp :=
  match frame with
  | [] => []
  | b :: rest =>
    let chunk := (b :: rest).take chunkSize
    let remaining := rest.drop (chunkSize - 1)
    if remaining.isEmpty then [.write chunk]
    else .write chunk :: .sleep :: writeFrameOps chunkSize remaining
termination_by frame.length
decreasing_by simp [List.length_drop]; omega

/-- The chunks actually written, in order. -/
def bleWrites (ops : List BleOp) : List (List Nat) :=
  ops.filterMap fun op => match op with | .write d => some d | .sleep => none

lemma writeFrameOps_spec (cs : Nat) (hcs : 1 ≤ cs) :
    ∀ (n : Nat) (frame : List Nat), frame.length ≤ n →
      (bleWrites (writeFrameOps cs frame)).length = (frame.length + cs - 1) / cs ∧
      (bleWrites (writeFrameOps cs frame)).flatten = frame ∧
      (∀ w ∈ bleWrites (writeFrameOps cs frame), w.length ≤ cs) ∧
      writeFrameOps cs frame
          = List.intersperse .sleep ((bleWrites (writeFrameOps cs frame)).map .write) := by
  intro n
  induction n with
  | zero =>
    intro frame hf
    have : frame = [] := List.length_eq_zero.mp (Nat.le_zero.mp hf)
    subst this
    refine ⟨?_, ?_, ?_, ?_⟩ <;>
      simp [writeFrameOps, bleWrites, Nat.div_eq_of_lt (by omega : cs - 1 < cs)]
  | succ n ih =>
    intro frame hf
    match frame with
    | [] =>
      refine ⟨?_, ?_, ?_, ?_⟩ <;>
        simp [writeFrameOps, bleWrites, Nat.div_eq_of_lt (by omega : cs - 1 < cs)]
    | b :: rest =>
      by_cases hrem : (rest.drop (cs - 1)).isEmpty
      · have hrem' : rest.drop (cs - 1) = [] := List.isEmpty_iff.mp hrem
        have hrl : rest.length ≤ cs - 1 := by
          have := congrArg List.length hrem'
          simp only [List.length_drop, List.length_nil] at this
          omega
        have hlen : (b :: rest).length ≤ cs := by
          simp only [List.length_cons]
          omega
        have htake : (b :: rest).take cs = b :: rest := List.take_of_length_le hlen
        have hops : writeFrameOps cs (b :: rest) = [.write (b :: rest)] := by
          rw [writeFrameOps]
          simp only [hrem, if_pos, htake]
        have hwr : bleWrites (writeFrameOps cs (b :: rest)) = [b :: rest] := by
          rw [hops]; rfl
        refine ⟨?_, ?_, ?_, ?_⟩
        · rw [hwr]
          have hdiv : ((b :: rest).length + cs - 1) / cs = 1 := by
            apply Nat.div_eq_of_lt_le
            · simp only [List.length_cons]
              omega
            · simp only [List.length_cons]
              omega
          rw [hdiv]
          rfl
        · rw [hwr]; simp
        · rw [hwr]
          intro w hw
          simp only [List.mem_singleton] at hw
          subst hw
          exact hlen
        · rw [hops]
          rfl
      · simp only [Bool.not_eq_true, List.isEmpty_eq_false_iff_exists_mem,
          List.isEmpty_iff] at hrem
        have hremne : rest.drop (cs - 1) ≠ [] := hrem
        have hrl : cs ≤ rest.length := by
          have := List.length_pos.mpr hremne
          simp only [List.length_drop] at this
          omega
        have hremlen : (rest.drop (cs - 1)).length ≤ n := by
          simp only [List.length_drop]
          simp only [List.length_cons] at hf
          omega
        obtain ⟨ihlen, ihflat, ihmem, ihops⟩ := ih (rest.drop (cs - 1)) hremlen
        have hremb : (rest.drop (cs - 1)).isEmpty = false :=
          List.isEmpty_eq_false_iff_exists_mem.mpr
            (by rcases List.exists_cons_of_ne_nil hremne with ⟨x, xs, hx⟩
                exact ⟨x, hx ▸ List.mem_cons_self x xs⟩)
        have hops : writeFrameOps cs (b :: rest)
            = .write ((b :: rest).take cs) :: .sleep
                :: writeFrameOps cs (rest.drop (cs - 1)) := by
          rw [writeFrameOps]
          simp only [hremb]
          rfl
        have hwr : bleWrites (writeFrameOps cs (b :: rest))
            = (b :: rest).take cs :: bleWrites (writeFrameOps cs (rest.drop (cs - 1))) := by
          rw [hops]
          rfl
        have hdropcons : rest.drop (cs - 1) = (b :: rest).drop cs := by
          obtain ⟨cs', rfl⟩ : ∃ cs', cs = cs' + 1 := ⟨cs - 1, by omega⟩
          simp
        refine ⟨?_, ?_, ?_, ?_⟩
        · rw [hwr]
          simp only [List.length_cons]
          rw [ihlen]
          have e1 : rest.length + 1 + cs - 1
              = ((rest.drop (cs - 1)).length + cs - 1) + cs := by
            simp only [List.length_drop]
            omega
          rw [e1, Nat.add_div_right _ (by omega : 0 < cs)]
        · rw [hwr]
          simp only [List.flatten_cons]
          rw [ihflat, hdropcons, List.take_append_drop]
        · rw [hwr]
          intro w hw
          simp only [List.mem_cons] at hw
          rcases hw with hw | hw
          · subst hw
            simp only [List.length_take]
            omega
          · exact ihmem w hw
        · rw [hops]
          have hwsne : bleWrites (writeFrameOps cs (rest.drop (cs - 1))) ≠ [] := by
            intro h0
            rw [h0] at ihflat
            exact hremne ihflat.symm
          have hblw : bleWrites (.write ((b :: rest).take cs) :: .sleep
              :: writeFrameOps cs (rest.drop (cs - 1)))
              = (b :: rest).take cs :: bleWrites (writeFrameOps cs (rest.drop (cs - 1))) := by
            simp [bleWrites]
          rw [hblw]
          rcases List.exists_cons_of_ne_nil hwsne with ⟨w, ws, hws⟩
          rw [hws]
          simp only [List.map_cons, List.intersperse_cons_cons]
          rw [← List.map_cons, ← hws, ← ihops]

/-- C5: `write_frame` on a frame of length `L` with chunk size
`MTU - 3 ≥ 1` performs exactly `⌈L / (MTU-3)⌉` GATT writes whose
concatenation is the frame, each of at most `MTU - 3` bytes, with one
pacing sleep between each pair of consecutive writes (and none when a
single chunk suffices). -/
theorem ble_write_frame_chunking (mtu : Nat) (frame : List Nat) (hmtu : 4 ≤ mtu) :
    (bleWrites (writeFrameOps (mtu - 3) frame)).length
        = (frame.length + (mtu - 3) - 1) / (mtu - 3) ∧
    (bleWrites (writeFrameOps (mtu - 3) frame)).flatten = frame ∧
    (∀ w ∈ bleWrites (writeFrameOps (mtu - 3) frame), w.length ≤ mtu - 3) ∧
    writeFrameOps (mtu - 3) frame
        = List.intersperse .sleep
            ((bleWrites (writeFrameOps (mtu - 3) frame)).map .write) :=
  writeFrameOps_spec (mtu - 3) (by omega) frame.length frame le_rfl

/-- Witness for C5: a 5-byte frame with MTU 6 (chunk size 3) splits into
two writes `[1,2,3]` and `[4,5]` with one pacing sleep between them. -/
theorem ble_write_frame_chunking_witness :
    (bleWrites (writeFrameOps (6 - 3) [1, 2, 3, 4, 5])).length
        = ([1, 2, 3, 4, 5].length + (6 - 3) - 1) / (6 - 3) ∧
    (bleWrites (writeFrameOps (6 - 3) [1, 2, 3, 4, 5])).flatten = [1, 2, 3, 4, 5] ∧
    (∀ w ∈ bleWrites (writeFrameOps (6 - 3) [1, 2, 3, 4, 5]), w.length ≤ 6 - 3) ∧
    writeFrameOps (6 - 3) [1, 2, 3, 4, 5]
        = List.intersperse .sleep
            ((bleWrites (writeFrameOps (6 - 3) [1, 2, 3, 4, 5])).map .write) :=
  ble_write_frame_chunking 6 [1, 2, 3, 4, 5] (by decide)

/-! ## BLE disconnect handling (`ble.py` `_on_disconnect`, `write_raw`,
`read_frame`) -/

/-- The BLE transport state relevant to disconnect handling: the Bleak
client's `is_connected` flag and the transport's own `_disconnect_event`
flag. -/
structure BleConn where
  isConnected : Bool
  disconnectEvent : Bool
deriving DecidableEq, Repr

/-- `AsyncBleRpc._on_disconnect`: sets the terminal `_disconnect_event`
flag and nothing else (by the time Bleak fires it, `is_connected` is
already false). -/
def onDisconnect (st : BleConn) : BleConn :=
  { st with disconnectEvent := true }

/-- `AsyncBleRpc.write_raw`: raises `ConnectionError` when the client is
absent or not connected, else performs the GATT write. -/
def bleWriteRaw (st : BleConn) (data : List Nat) : Except BleError (List Nat) :=
  if ¬ st.isConnected then .error .connectionError else .ok data

/-- `AsyncBleRpc.read_frame` issued against transport state `st`: the body
reads only the receive buffer and pending notifications -- it never
consults `st.isConnected` or `st.disconnectEvent`. -/
def bleReadFrameConn (st : BleConn) (buf : List Nat) (arrivals : List (List Nat)) :
    BleReadResult :=
  bleReadFrame buf arrivals

/-- C6 evaluated at the failing state: after the disconnect callback has
fired (flag set, client disconnected), `write_raw` -- and hence every
`write_frame` chunk -- does fail with `ConnectionError`, but a `read_frame`
finding an empty buffer and receiving no further notifications raises
`TimeoutError`, not the `ConnectionError` the specification requires; the
read path never consults the disconnect flag. -/
theorem ble_disconnect_read_not_connection_error :
    (onDisconnect ⟨false, false⟩).disconnectEvent = true ∧
    bleWriteRaw (onDisconnect ⟨false, false⟩) [30] = .error .connectionError ∧
    (bleReadFrameConn (onDisconnect ⟨false, false⟩) [] []).out = .error .timeout ∧
    (bleReadFrameConn (onDisconnect ⟨false, false⟩) [] []).out
        ≠ .error .connectionError := by
  refine ⟨rfl, rfl, rfl, ?_⟩
  intro h
  have : BleError.timeout = BleError.connectionError := Except.error.inj h
  cases this

end AtsSdk
